import Mathlib

/-!
Shallow embedding of `src/mpyq.py` (mpyq 0.2.5, an MPQ archive reader).
Bytes are modelled as `Nat` (values < 256 in every real byte string),
byte strings as `List Nat`, and Python's unbounded non-negative integers
as `Nat` with explicit `&&& 0xFFFFFFFF` masks exactly where the source
masks.  Python dicts indexed by `Nat` are modelled as functions
`Nat → Nat` built by successive pointwise update, mirroring the source's
insertion order.
-/

namespace Mpyq

/-! ### Flag constants (src/mpyq.py lines 23-30) -/

def MPQ_FILE_IMPLODE : Nat := 0x00000100
def MPQ_FILE_COMPRESS : Nat := 0x00000200
def MPQ_FILE_ENCRYPTED : Nat := 0x00010000
def MPQ_FILE_FIX_KEY : Nat := 0x00020000
def MPQ_FILE_SINGLE_UNIT : Nat := 0x01000000
def MPQ_FILE_DELETE_MARKER : Nat := 0x02000000
def MPQ_FILE_SECTOR_CRC : Nat := 0x04000000
def MPQ_FILE_EXISTS : Nat := 0x80000000

/-! ### Crypt table (`_prepare_encryption_table`, lines 446-466)

The Python builds a dict `crypt_table` keyed by `index = i + 0x100*j`
for `i ∈ [0,256)` (outer loop) and `j ∈ [0,5)` (inner loop), advancing a
seed by `seed = (seed * 125 + 3) % 0x2AAAAB` twice per entry.  We model
the dict as a function `Nat → Nat` (entries never written stay at the
dict-absent placeholder 0; every index actually looked up by the hasher
and the cipher is written by the loop). -/

/-- One step of the generator's linear congruential recurrence
(`seed = (seed * 125 + 3) % 0x2AAAAB`). -/
def seedStep (seed : Nat) : Nat := (seed * 125 + 3) % 0x2AAAAB

/-- Pointwise update of the dict model (`crypt_table[index] = v`). -/
def tableUpdate (t : Nat → Nat) (k v : Nat) : Nat → Nat :=
  fun x => if x = k then v else t x

/-- The inner `for j in range(5)` loop of `_prepare_encryption_table`:
state is `(seed, index, table)`; each pass performs two seed steps,
stores `temp1 ||| temp2` at `index`, and advances `index` by 0x100. -/
def prepareInner : Nat → Nat × Nat × (Nat → Nat) → Nat × Nat × (Nat → Nat)
  | 0, st => st
  | j + 1, (seed, index, t) =>
    let seed1 := seedStep seed
    let temp1 := (seed1 &&& 0xFFFF) <<< 0x10
    let seed2 := seedStep seed1
    let temp2 := seed2 &&& 0xFFFF
    prepareInner j (seed2, index + 0x100, tableUpdate t index (temp1 ||| temp2))

/-- The outer `for i in range(256)` loop: `n` iterations remain, `i` is
the current outer index (and the inner loop's starting `index`). -/
def prepareOuter : Nat → Nat → (Nat → Nat) → Nat → (Nat → Nat)
  | 0, _, t, _ => t
  | n + 1, seed, t, i =>
    match prepareInner 5 (seed, i, t) with
    | (seed2, _, t2) => prepareOuter n seed2 t2 (i + 1)

/-- `MPQArchive.encryption_table`: the crypt table produced by
`_prepare_encryption_table` with initial seed 0x00100001. -/
def encryption_table : Nat → Nat :=
  prepareOuter 256 0x00100001 (fun _ => 0) 0

/-! ### Hasher (`MPQArchive._hash`, lines 406-424) -/

/-- The five hash purposes (`hash_types` dict in `_hash`). -/
inductive HashType where
  | TABLE_OFFSET
  | HASH_A
  | HASH_B
  | TABLE
  | HASH_NUM
deriving DecidableEq

/-- Numeric value of each hash purpose (`hash_types` dict). -/
def hash_types : HashType → Nat
  | .TABLE_OFFSET => 0
  | .HASH_A => 1
  | .HASH_B => 2
  | .TABLE => 3
  | .HASH_NUM => 4

/-- ASCII byte-wise uppercasing, the semantics of Python's
`bytes.upper()` (filenames flowing into `_hash` come from the archive's
listfile as byte strings; `str.upper()` agrees on ASCII). -/
def upperByte (c : Nat) : Nat := if 97 ≤ c ∧ c ≤ 122 then c - 32 else c

/-- ASCII byte-wise lowercasing (`bytes.lower()`). -/
def lowerByte (c : Nat) : Nat := if 65 ≤ c ∧ c ≤ 90 then c + 32 else c

/-- The `for ch in string.upper()` loop body of `_hash`, iterated over
the remaining bytes; state is `(seed1, seed2)`. -/
def hashLoop (t : Nat) : List Nat → Nat → Nat → Nat
  | [], seed1, _ => seed1
  | ch :: rest, seed1, seed2 =>
    let value := encryption_table ((t <<< 8) + ch)
    let seed1' := (value ^^^ (seed1 + seed2)) &&& 0xFFFFFFFF
    let seed2' := (ch + seed1' + seed2 + (seed2 <<< 5) + 3) &&& 0xFFFFFFFF
    hashLoop t rest seed1' seed2'

/-- `MPQArchive._hash(string, hash_type)`: uppercases the byte string,
then folds the seed recurrence from `(0x7FED7FED, 0xEEEEEEEE)` and
returns the final `seed1`. -/
def mpqHash (s : List Nat) (hash_type : HashType) : Nat :=
  hashLoop (hash_types hash_type) (s.map upperByte) 0x7FED7FED 0xEEEEEEEE

/-- Byte values of an ASCII string literal, for stating golden values. -/
def strBytes (s : String) : List Nat := s.data.map Char.toNat

/-- The frozen claim C3's formula for the FIX_KEY file key, following
the spec's words: `(raw_key + offset) XOR size` with 32-bit modular
arithmetic, `offset` being the block entry's offset field.  Kept
separate from `get_file_key` (which is translated from the source) so
the two can be compared. -/
def fileKeyClaim (raw_key offset size : Nat) : Nat :=
  ((raw_key + offset) % 4294967296) ^^^ size

/-! ### Cipher (`MPQArchive._decrypt`, lines 426-444)

The loop runs over `range(len(data) // 4)`: exactly the full 4-byte
little-endian words of the input; any trailing 1-3 bytes are never
written to `result` and are dropped from the output.

Python's `~seed1` on the 32-bit-bounded state (the key is a u32 hash
and every later state is masked) satisfies
`(~seed1 << 0x15) mod 2^32 = ((0xFFFFFFFF ^^^ seed1) <<< 0x15) mod 2^32`,
and the final `&= 0xFFFFFFFF` distributes over `|||`, so the signed
Python expression is rendered with the unsigned complement below. -/

/-- The per-word loop of `_decrypt`; state is `(seed1, seed2)`, the
remaining input is raw bytes.  Fewer than four remaining bytes end the
loop (the `range(len(data) // 4)` bound), dropping them. -/
def decryptLoop : Nat → Nat → List Nat → List Nat
  | seed1, seed2, b0 :: b1 :: b2 :: b3 :: rest =>
    let seed2a := (seed2 + encryption_table (0x400 + (seed1 &&& 0xFF))) &&& 0xFFFFFFFF
    let w := b0 + 256 * b1 + 65536 * b2 + 16777216 * b3
    let value := (w ^^^ (seed1 + seed2a)) &&& 0xFFFFFFFF
    let seed1' := ((((0xFFFFFFFF ^^^ seed1) <<< 0x15) + 0x11111111) ||| (seed1 >>> 0x0B)) &&& 0xFFFFFFFF
    let seed2' := (value + seed2a + (seed2a <<< 5) + 3) &&& 0xFFFFFFFF
    value % 256 :: value / 256 % 256 :: value / 65536 % 256 :: value / 16777216 % 256 ::
      decryptLoop seed1' seed2' rest
  | _, _, _ => []

/-- `MPQArchive._decrypt(data, key)`. -/
def decrypt (data : List Nat) (key : Nat) : List Nat :=
  decryptLoop key 0xEEEEEEEE data

/-! ### Archive records (namedtuples, lines 89-108; header dict) -/

/-- The fields of the header dict built by `read_header` (classic
32-byte header plus the computed `offset`, the archive body's base
offset; the v1 extension fields are not consulted by the read path and
are omitted). -/
structure MPQHeader where
  header_size : Nat
  archive_size : Nat
  format_version : Nat
  sector_size_shift : Nat
  hash_table_offset : Nat
  block_table_offset : Nat
  hash_table_entries : Nat
  block_table_entries : Nat
  offset : Nat
deriving DecidableEq

/-- `MPQHashTableEntry` namedtuple. -/
structure MPQHashTableEntry where
  hash_a : Nat
  hash_b : Nat
  locale : Nat
  platform : Nat
  block_table_index : Nat
deriving DecidableEq

/-- `MPQBlockTableEntry` namedtuple. -/
structure MPQBlockTableEntry where
  offset : Nat
  archived_size : Nat
  size : Nat
  flags : Nat
deriving DecidableEq

/-- The mutable state of an `MPQArchive` object after `__init__`:
the underlying file (a byte string) with its current position, the
parsed header, both tables, and the optional listfile names. -/
structure Archive where
  file : List Nat
  filePos : Nat
  header : MPQHeader
  hash_table : List MPQHashTableEntry
  block_table : List MPQBlockTableEntry
  files : Option (List (List Nat))
deriving DecidableEq

/-- Exceptions that the read path can raise. -/
inductive MPQError where
  /-- `IndexError` from `self.block_table[...]`. -/
  | indexError
  /-- `struct.error` from `struct.unpack` on a wrong-sized buffer. -/
  | structError
  /-- `ValueError`/`IndexError` raised inside `decompress` for an
  unsupported compression tag or empty data. -/
  | valueError
  /-- An exception propagating out of an external decompressor. -/
  | codecError
  /-- `RuntimeError` from `extract` without a listfile. -/
  | runtimeError
deriving DecidableEq

/-! ### File resolver and file key (lines 198-212) -/

/-- `MPQArchive.get_hash_table_entry`: linear scan for the first entry
whose `(hash_a, hash_b)` matches the filename's hashes. -/
def get_hash_table_entry (hash_table : List MPQHashTableEntry)
    (filename : List Nat) : Option MPQHashTableEntry :=
  let hash_a := mpqHash filename .HASH_A
  let hash_b := mpqHash filename .HASH_B
  hash_table.find? (fun entry => entry.hash_a == hash_a && entry.hash_b == hash_b)

/-- `filename.replace('\\', '//')`: each backslash (92) becomes two
forward slashes (47). -/
def replaceBackslash : List Nat → List Nat
  | [] => []
  | c :: rest => (if c = 92 then [47, 47] else [c]) ++ replaceBackslash rest

/-- `os.path.basename` (POSIX): the part after the last slash. -/
def posixBasename (s : List Nat) : List Nat :=
  (s.reverse.takeWhile (fun c => c != 47)).reverse

/-- `MPQArchive.get_file_key(filename, block_entry, strip=True)`.
`headerOffset` stands for `self.header['offset']`.  The FIX_KEY branch
computes `key + block_entry.offset - headerOffset` with no 32-bit mask,
exactly as the source; `Nat` subtraction agrees with Python's whenever
`headerOffset ≤ key + block_entry.offset` (every use below is in that
range). -/
def get_file_key (headerOffset : Nat) (filename : List Nat)
    (block_entry : MPQBlockTableEntry) (strip : Bool) : Nat :=
  let basename := if strip then posixBasename (replaceBackslash filename) else filename
  let key := mpqHash basename .TABLE
  if block_entry.flags &&& MPQ_FILE_FIX_KEY ≠ 0 then
    (key + block_entry.offset - headerOffset) ^^^ block_entry.size
  else key

/-! ### Codec dispatch (`decompress` inside `read_file`, lines 218-263)

The deflate, bzip2 and external-imploder decoders are external
collaborators (`zlib`, `bz2`, the `ttdecomp` child process); they are
parameters of the embedding.  The imploder branch never raises in the
source (it warns and returns whatever bytes it has), so its parameter
is total. -/

structure Codecs where
  zlibDecompress : List Nat → Except MPQError (List Nat)
  bz2Decompress : List Nat → Except MPQError (List Nat)
  ttdecomp : List Nat → List Nat

/-- Codecs whose decoders return their input unchanged (for concrete
witnesses). -/
def idCodecs : Codecs where
  zlibDecompress := fun d => .ok d
  bz2Decompress := fun d => .ok d
  ttdecomp := fun d => d

/-- The inner `decompress` function of `read_file`: the first byte is
the compression-type tag, dispatched over `CompressionType`; LZMA,
SPARSE, ADPCM and ADPCM_STEREO are stubs returning the tail unchanged;
an unrecognized tag raises `ValueError`, empty data `IndexError`. -/
def decompress (c : Codecs) (data : List Nat) : Except MPQError (List Nat) :=
  match data with
  | [] => .error .valueError
  | tag :: rest =>
    if tag = 0 then .ok rest
    else if tag = 2 then c.zlibDecompress rest
    else if tag = 16 then c.bz2Decompress rest
    else if tag = 8 then .ok (c.ttdecomp rest)
    else if tag = 18 then .ok rest
    else if tag = 32 then .ok rest
    else if tag = 64 then .ok rest
    else if tag = 128 then .ok rest
    else .error .valueError

/-! ### Sectored reader (`read_file`, lines 265-332) -/

/-- `sector_size = 512 << self.header['sector_size_shift']` (line 285). -/
def sector_size (header : MPQHeader) : Nat :=
  512 <<< header.sector_size_shift

/-- `sectors = block_entry.size // sector_size + 1`, plus one more when
`MPQ_FILE_SECTOR_CRC` is set (lines 286-291). -/
def numSectors (header : MPQHeader) (block_entry : MPQBlockTableEntry) : Nat :=
  let sectors := block_entry.size / sector_size header + 1
  if block_entry.flags &&& MPQ_FILE_SECTOR_CRC ≠ 0 then sectors + 1 else sectors

/-- `n_offsets = sectors + 1` (line 295). -/
def nOffsets (header : MPQHeader) (block_entry : MPQBlockTableEntry) : Nat :=
  numSectors header block_entry + 1

/-- `offset_table = file_data[:4 * n_offsets]` (line 296). -/
def rawOffsetTable (header : MPQHeader) (block_entry : MPQBlockTableEntry)
    (file_data : List Nat) : List Nat :=
  file_data.take (4 * nOffsets header block_entry)

/-- Little-endian u32 decoding of consecutive 4-byte groups (the body
of `struct.unpack('<%dI' % n, data)`). -/
def bytesToWords : List Nat → List Nat
  | b0 :: b1 :: b2 :: b3 :: rest =>
    (b0 + 256 * b1 + 65536 * b2 + 16777216 * b3) :: bytesToWords rest
  | _ => []

/-- `struct.unpack('<%dI' % n, data)`: raises `struct.error` unless the
buffer is exactly `4*n` bytes. -/
def unpack32LE (n : Nat) (data : List Nat) : Except MPQError (List Nat) :=
  if data.length = 4 * n then .ok (bytesToWords data) else .error .structError

/-- The undeclared-PKWare-implode quirk (lines 311-316): a sector
beginning `00 06` gets `MPQ_FILE_COMPRESS` forced into its flags and
the IMPLODE tag byte `0x08` prepended. -/
def fixQuirk (blockFlags : Nat) (sector : List Nat) : Nat × List Nat :=
  if sector.take 2 = [0, 6] then
    (blockFlags ||| MPQ_FILE_COMPRESS, 8 :: sector)
  else (blockFlags, sector)

/-- Per-sector compression handling (lines 311-320): apply the quirk,
then decompress when the (possibly fixed) flags carry COMPRESS and
either decompression is forced or the remaining uncompressed budget
strictly exceeds the sector length. -/
def processSector (c : Codecs) (force : Bool) (blockFlags : Nat)
    (sector_bytes_left : Int) (sector : List Nat) : Except MPQError (List Nat) :=
  let fixed := fixQuirk blockFlags sector
  let flags := fixed.1
  let sector := fixed.2
  if flags &&& MPQ_FILE_COMPRESS ≠ 0 ∧
      (force = true ∨ (sector.length : Int) < sector_bytes_left) then
    decompress c sector
  else .ok sector

/-- The `for i in range(len(positions) - (2 if crc else 1))` loop
(lines 301-323): slice `file_data[positions[i]:positions[i+1]]`,
decrypt with `key + i` when encrypted, process, and append; the budget
`sector_bytes_left` decreases by the post-processing sector length. -/
def sectorLoop (c : Codecs) (force : Bool) (blockFlags : Nat)
    (encrypted : Bool) (key : Nat) (file_data positions : List Nat) :
    List Nat → Int → Except MPQError (List Nat)
  | [], _ => .ok []
  | i :: rest, sector_bytes_left =>
    let sector := (file_data.drop (positions.getD i 0)).take
      (positions.getD (i + 1) 0 - positions.getD i 0)
    let sector := if encrypted then decrypt sector (key + i) else sector
    match processSector c force blockFlags sector_bytes_left sector with
    | .error e => .error e
    | .ok sector =>
      match sectorLoop c force blockFlags encrypted key file_data positions
          rest (sector_bytes_left - sector.length) with
      | .error e => .error e
      | .ok tail => .ok (sector ++ tail)

/-- The multi-sector branch of `read_file` (lines 282-324), given the
already-read blob `file_data` and the derived key. -/
def readSectored (c : Codecs) (force : Bool) (header : MPQHeader)
    (block_entry : MPQBlockTableEntry) (encrypted : Bool) (key : Nat)
    (file_data : List Nat) : Except MPQError (List Nat) :=
  let crc := block_entry.flags &&& MPQ_FILE_SECTOR_CRC ≠ 0
  let raw := rawOffsetTable header block_entry file_data
  let offset_table := if encrypted then decrypt raw (key - 1) else raw
  match unpack32LE (nOffsets header block_entry) offset_table with
  | .error e => .error e
  | .ok positions =>
    sectorLoop c force block_entry.flags encrypted key file_data positions
      (List.range (positions.length - (if crc then 2 else 1)))
      (block_entry.size : Int)

/-- `MPQArchive.read_file(filename, force_decompress)`.  Returns the
archive state after the call (only the file position can change) and
the outcome: `.ok none` is Python's `None` return, `.ok (some bytes)` a
byte-string return, `.error` a raised exception. -/
def read_file (c : Codecs) (a : Archive) (filename : List Nat)
    (force_decompress : Bool) : Archive × Except MPQError (Option (List Nat)) :=
  match get_hash_table_entry a.hash_table filename with
  | none => (a, .ok none)
  | some hash_entry =>
    match a.block_table[hash_entry.block_table_index]? with
    | none => (a, .error .indexError)
    | some block_entry =>
      if block_entry.flags &&& MPQ_FILE_EXISTS ≠ 0 then
        if block_entry.archived_size = 0 then (a, .ok none)
        else
          let offset := block_entry.offset + a.header.offset
          let file_data := (a.file.drop offset).take block_entry.archived_size
          let a2 : Archive := { a with filePos := offset + file_data.length }
          let encrypted := block_entry.flags &&& MPQ_FILE_ENCRYPTED ≠ 0
          let key := get_file_key a.header.offset filename block_entry true
          if block_entry.flags &&& MPQ_FILE_SINGLE_UNIT = 0 then
            (a2, (readSectored c force_decompress a.header block_entry encrypted
              key file_data).map some)
          else
            if block_entry.flags &&& MPQ_FILE_COMPRESS ≠ 0 ∧
                (force_decompress = true ∨ block_entry.archived_size < block_entry.size) then
              (a2, (decompress c file_data).map some)
            else (a2, .ok (some file_data))
      else (a, .ok none)

/-! ### `MPQArchive.extract` (lines 334-340) -/

/-- The `dict((f, self.read_file(f)) for f in files)` comprehension,
threading the archive state; an exception from any `read_file` aborts. -/
def extractLoop (c : Codecs) :
    Archive → List (List Nat) →
    Archive × Except MPQError (List (List Nat × Option (List Nat)))
  | a, [] => (a, .ok [])
  | a, f :: rest =>
    match read_file c a f false with
    | (a1, .error e) => (a1, .error e)
    | (a1, .ok v) =>
      match extractLoop c a1 rest with
      | (a2, .error e) => (a2, .error e)
      | (a2, .ok tail) => (a2, .ok ((f, v) :: tail))

/-- `MPQArchive.extract(files=None)`: `files = files or self.files`
(an empty argument list is falsy and falls back to `self.files`), then
raise `RuntimeError` unless the result is a non-empty list. -/
def extract (c : Codecs) (a : Archive) (files : Option (List (List Nat))) :
    Archive × Except MPQError (List (List Nat × Option (List Nat))) :=
  let files := match files with
    | some l => if l.isEmpty then a.files else some l
    | none => a.files
  match files with
  | some l => if l.isEmpty then (a, .error .runtimeError) else extractLoop c a l
  | none => (a, .error .runtimeError)

/-! ## Theorems -/

set_option maxRecDepth 1000000

/-- C1 counterexample: the crypt table's entry at index 1 is
0x02BE0170, not the claimed 0x9E07D98C, so the claimed pair of golden
values is false. -/
theorem crypt_table_claimed_goldens_refuted :
    ¬ (encryption_table 0 = 0x55C636E2 ∧ encryption_table 1 = 0x9E07D98C) := by
  decide

/-- C1 (amended): the crypt table generator is deterministic and
bit-exact: the entry at index 0 equals 0x55C636E2 and the entry at
index 1 equals 0x02BE0170. -/
theorem crypt_table_goldens :
    encryption_table 0 = 0x55C636E2 ∧ encryption_table 1 = 0x02BE0170 := by
  decide

set_option maxHeartbeats 2000000 in
/-- C2: the hasher produces the golden values for the well-known names
`(listfile)`, `(hash table)` and `(block table)`. -/
theorem hash_golden_values :
    mpqHash (strBytes "(listfile)") .HASH_A = 0xFD657910
  ∧ mpqHash (strBytes "(listfile)") .HASH_B = 0x4E9B98A7
  ∧ mpqHash (strBytes "(hash table)") .TABLE = 0xC3AF3770
  ∧ mpqHash (strBytes "(block table)") .TABLE = 0xEC83B3A3 :=
  ⟨by decide, by decide, by decide, by decide⟩

/-- C10: on the empty string the hash loop never runs, so the hasher
returns the initial state 0x7FED7FED for every purpose. -/
theorem hash_empty_string (p : HashType) : mpqHash [] p = 0x7FED7FED := rfl

/-- Uppercasing twice agrees with uppercasing after lowercasing, byte
by byte. -/
theorem upperByte_upperByte_eq_upperByte_lowerByte (c : Nat) :
    upperByte (upperByte c) = upperByte (lowerByte c) := by
  simp only [upperByte, lowerByte]
  split_ifs <;> omega

/-- C8: the hasher is case-insensitive: hashing the byte-wise uppercase
of a name agrees with hashing its byte-wise lowercase, for every
purpose. -/
theorem hash_case_insensitive (name : List Nat) (p : HashType) :
    mpqHash (name.map upperByte) p = mpqHash (name.map lowerByte) p := by
  unfold mpqHash
  rw [List.map_map, List.map_map]
  have h : upperByte ∘ upperByte = upperByte ∘ lowerByte := by
    funext c
    exact upperByte_upperByte_eq_upperByte_lowerByte c
  rw [h]

/-- C4 counterexample: on a one-byte input the cipher returns the empty
string — the output does not have the same length as the input and the
trailing byte is not passed through. -/
theorem decrypt_tail_dropped_refuted :
    (decrypt [171] 0).length ≠ [171].length := by
  decide

/-- Taking `k + 4` elements of a four-element-headed list keeps the
head bytes. -/
theorem take_add_four (k b0 b1 b2 b3 : Nat) (rest : List Nat) :
    (b0 :: b1 :: b2 :: b3 :: rest).take (k + 4) = b0 :: b1 :: b2 :: b3 :: rest.take k := rfl

/-- The per-word decryption loop emits exactly four bytes per full
input word, ignores the trailing partial word, and its output depends
only on the full words of its input. -/
theorem decryptLoop_spec (n : Nat) : ∀ (data : List Nat), data.length ≤ n → ∀ seed1 seed2,
    (decryptLoop seed1 seed2 data).length = 4 * (data.length / 4)
  ∧ decryptLoop seed1 seed2 data
      = decryptLoop seed1 seed2 (data.take (4 * (data.length / 4))) := by
  induction n with
  | zero =>
    intro data hd s1 s2
    have h0 : data = [] := List.eq_nil_of_length_eq_zero (Nat.le_zero.mp hd)
    subst h0
    exact ⟨rfl, rfl⟩
  | succ n ih =>
    intro data hd s1 s2
    match data with
    | [] => constructor <;> simp [decryptLoop]
    | [b0] => constructor <;> simp [decryptLoop]
    | [b0, b1] => constructor <;> simp [decryptLoop]
    | [b0, b1, b2] => constructor <;> simp [decryptLoop]
    | b0 :: b1 :: b2 :: b3 :: rest =>
      have hr : rest.length ≤ n := by
        simp only [List.length_cons] at hd
        omega
      have IH := ih rest hr
      have hdiv : 4 * ((b0 :: b1 :: b2 :: b3 :: rest).length / 4)
          = 4 * (rest.length / 4) + 4 := by
        simp only [List.length_cons]
        omega
      constructor
      · simp only [decryptLoop, List.length_cons]
        rw [(IH _ _).1]
        omega
      · rw [hdiv, take_add_four]
        simp only [decryptLoop, List.cons.injEq, true_and]
        exact (IH _ _).2

/-- C4 (amended): for every buffer and key, the cipher transforms only
the full little-endian 4-byte words: the output has length
`4 * (input length / 4)` and depends only on the input's full words;
the bytes beyond the last full word are dropped rather than passed
through. -/
theorem decrypt_full_words_only (data : List Nat) (key : Nat) :
    (decrypt data key).length = 4 * (data.length / 4)
  ∧ decrypt data key = decrypt (data.take (4 * (data.length / 4))) key :=
  decryptLoop_spec data.length data (Nat.le_refl _) key 0xEEEEEEEE

/-- C3 counterexample: for a FIX_KEY block entry with offset field
0x1000 and size 0 in an archive whose body starts at base offset
0x200, the key the code derives for the file `!` differs from the
claim's `(raw_key + offset) XOR size` in 32-bit modular arithmetic:
the code subtracts the base offset from the offset field first. -/
theorem fix_key_claim_refuted :
    get_file_key 0x200 [33]
        { offset := 0x1000, archived_size := 1, size := 0, flags := MPQ_FILE_FIX_KEY } true
      ≠ fileKeyClaim (mpqHash (posixBasename (replaceBackslash [33])) .TABLE) 0x1000 0 := by
  decide

/-- C3 (amended): for every block entry with FIX_KEY set, the file key
equals `(raw_key + offset - base_offset) XOR size` computed in
unbounded (Python) integer arithmetic with no 32-bit reduction, where
`raw_key` is the TABLE-purpose hash of the backslash-normalized
basename, `offset` is the block entry's offset field and `base_offset`
is the archive body offset; the hypothesis `base_offset ≤ raw_key +
offset` delimits where Python's signed subtraction is the `Nat` one. -/
theorem fix_key_formula (filename : List Nat) (e : MPQBlockTableEntry) (base : Nat)
    (hflag : e.flags &&& MPQ_FILE_FIX_KEY ≠ 0)
    (hbase : base ≤ mpqHash (posixBasename (replaceBackslash filename)) .TABLE + e.offset) :
    get_file_key base filename e true
      = (mpqHash (posixBasename (replaceBackslash filename)) .TABLE + e.offset - base)
          ^^^ e.size := by
  simp only [get_file_key, if_true, if_pos hflag]

/-- Witness for `fix_key_formula` at the counterexample's input. -/
theorem fix_key_formula_witness :
    (MPQ_FILE_FIX_KEY &&& MPQ_FILE_FIX_KEY ≠ 0
      ∧ 0x200 ≤ mpqHash (posixBasename (replaceBackslash [33])) .TABLE + 0x1000)
  ∧ get_file_key 0x200 [33]
        { offset := 0x1000, archived_size := 1, size := 0, flags := MPQ_FILE_FIX_KEY } true
      = (mpqHash (posixBasename (replaceBackslash [33])) .TABLE + 0x1000 - 0x200) ^^^ 0 :=
  ⟨⟨by decide, by decide⟩,
    fix_key_formula [33]
      { offset := 0x1000, archived_size := 1, size := 0, flags := MPQ_FILE_FIX_KEY }
      0x200 (by decide) (by decide)⟩

/-- The LE u32 decoder produces one word per full 4-byte group. -/
theorem bytesToWords_length (n : Nat) : ∀ (data : List Nat), data.length ≤ n →
    (bytesToWords data).length = data.length / 4 := by
  induction n with
  | zero =>
    intro data hd
    have h0 : data = [] := List.eq_nil_of_length_eq_zero (Nat.le_zero.mp hd)
    subst h0
    rfl
  | succ n ih =>
    intro data hd
    match data with
    | [] => simp [bytesToWords]
    | [b0] => simp [bytesToWords]
    | [b0, b1] => simp [bytesToWords]
    | [b0, b1, b2] => simp [bytesToWords]
    | b0 :: b1 :: b2 :: b3 :: rest =>
      have hr : rest.length ≤ n := by
        simp only [List.length_cons] at hd
        omega
      simp only [bytesToWords, List.length_cons, ih rest hr]
      omega

/-- C5: for every non-single-unit file the sectored reader computes
`sector_size = 512 << sector_size_shift`, a sector count of
`size / sector_size + 1` (integer division, so a slot past the full
sectors always exists, even when `size` is an exact multiple), one
more sector when SECTOR_CRC is set, and reads the sector-offset table
as the first `4 * (sectors + 1)` bytes of the blob, decoded as
little-endian u32 entries. -/
theorem sectored_layout (header : MPQHeader) (e : MPQBlockTableEntry) (blob : List Nat)
    (hlen : 4 * nOffsets header e ≤ blob.length) :
    sector_size header = 512 <<< header.sector_size_shift
  ∧ numSectors header e
      = e.size / sector_size header + 1
        + (if e.flags &&& MPQ_FILE_SECTOR_CRC ≠ 0 then 1 else 0)
  ∧ e.size / sector_size header < numSectors header e
  ∧ nOffsets header e = numSectors header e + 1
  ∧ rawOffsetTable header e blob = blob.take (4 * nOffsets header e)
  ∧ unpack32LE (nOffsets header e) (rawOffsetTable header e blob)
      = .ok (bytesToWords (blob.take (4 * nOffsets header e)))
  ∧ (bytesToWords (blob.take (4 * nOffsets header e))).length = nOffsets header e := by
  have htake : (blob.take (4 * nOffsets header e)).length = 4 * nOffsets header e := by
    rw [List.length_take]
    omega
  refine ⟨rfl, ?_, ?_, rfl, rfl, ?_, ?_⟩
  · simp only [numSectors]
    split_ifs <;> omega
  · simp only [numSectors]
    split_ifs <;> omega
  · simp only [unpack32LE, rawOffsetTable]
    rw [if_pos htake]
  · rw [bytesToWords_length (blob.take (4 * nOffsets header e)).length _ (Nat.le_refl _), htake]
    omega

/-- A 5000-byte file with sector size shift 3 (the spec's S5 scenario)
instantiating `sectored_layout`. -/
theorem sectored_layout_witness :
    4 * nOffsets ⟨32, 0, 0, 3, 0, 0, 0, 0, 0⟩ ⟨0, 0, 5000, 0⟩ ≤ (List.replicate 12 0).length
  ∧ (sector_size ⟨32, 0, 0, 3, 0, 0, 0, 0, 0⟩
       = 512 <<< (⟨32, 0, 0, 3, 0, 0, 0, 0, 0⟩ : MPQHeader).sector_size_shift
     ∧ numSectors ⟨32, 0, 0, 3, 0, 0, 0, 0, 0⟩ ⟨0, 0, 5000, 0⟩
         = 5000 / sector_size ⟨32, 0, 0, 3, 0, 0, 0, 0, 0⟩ + 1
           + (if (0 : Nat) &&& MPQ_FILE_SECTOR_CRC ≠ 0 then 1 else 0)
     ∧ 5000 / sector_size ⟨32, 0, 0, 3, 0, 0, 0, 0, 0⟩
         < numSectors ⟨32, 0, 0, 3, 0, 0, 0, 0, 0⟩ ⟨0, 0, 5000, 0⟩
     ∧ nOffsets ⟨32, 0, 0, 3, 0, 0, 0, 0, 0⟩ ⟨0, 0, 5000, 0⟩
         = numSectors ⟨32, 0, 0, 3, 0, 0, 0, 0, 0⟩ ⟨0, 0, 5000, 0⟩ + 1
     ∧ rawOffsetTable ⟨32, 0, 0, 3, 0, 0, 0, 0, 0⟩ ⟨0, 0, 5000, 0⟩ (List.replicate 12 0)
         = (List.replicate 12 0).take (4 * nOffsets ⟨32, 0, 0, 3, 0, 0, 0, 0, 0⟩ ⟨0, 0, 5000, 0⟩)
     ∧ unpack32LE (nOffsets ⟨32, 0, 0, 3, 0, 0, 0, 0, 0⟩ ⟨0, 0, 5000, 0⟩)
           (rawOffsetTable ⟨32, 0, 0, 3, 0, 0, 0, 0, 0⟩ ⟨0, 0, 5000, 0⟩ (List.replicate 12 0))
         = .ok (bytesToWords ((List.replicate 12 0).take
             (4 * nOffsets ⟨32, 0, 0, 3, 0, 0, 0, 0, 0⟩ ⟨0, 0, 5000, 0⟩)))
     ∧ (bytesToWords ((List.replicate 12 0).take
           (4 * nOffsets ⟨32, 0, 0, 3, 0, 0, 0, 0, 0⟩ ⟨0, 0, 5000, 0⟩))).length
         = nOffsets ⟨32, 0, 0, 3, 0, 0, 0, 0, 0⟩ ⟨0, 0, 5000, 0⟩) :=
  ⟨by decide, sectored_layout ⟨32, 0, 0, 3, 0, 0, 0, 0, 0⟩ ⟨0, 0, 5000, 0⟩
    (List.replicate 12 0) (by decide)⟩

/-- Any flag word extended with MPQ_FILE_COMPRESS carries that bit. -/
theorem or_compress_ne_zero (flags : Nat) :
    (flags ||| MPQ_FILE_COMPRESS) &&& MPQ_FILE_COMPRESS ≠ 0 := by
  intro h0
  have ht := congrArg (fun x => x.testBit 9) h0
  have h9 : MPQ_FILE_COMPRESS.testBit 9 = true := by decide
  simp only [Nat.testBit_land, Nat.testBit_lor, h9, Bool.or_true, Bool.and_true,
    Nat.zero_testBit] at ht
  exact Bool.noConfusion ht

/-- C6: a sector whose first two bytes are 0x00 0x06 is treated as
compressed: the quirk check forces MPQ_FILE_COMPRESS into the
per-sector flags (even when the block entry lacks it, hypothesis
`hflag`) and prepends the IMPLODE codec tag 0x08, after which the
sector goes through the normal compressed-sector dispatch. -/
theorem implode_quirk (c : Codecs) (force : Bool) (flags : Nat) (left : Int)
    (rest : List Nat) (hflag : flags &&& MPQ_FILE_COMPRESS = 0) :
    fixQuirk flags (0 :: 6 :: rest) = (flags ||| MPQ_FILE_COMPRESS, 8 :: 0 :: 6 :: rest)
  ∧ (flags ||| MPQ_FILE_COMPRESS) &&& MPQ_FILE_COMPRESS ≠ 0
  ∧ processSector c force flags left (0 :: 6 :: rest)
      = if force = true ∨ (((8 : Nat) :: 0 :: 6 :: rest).length : Int) < left
        then decompress c (8 :: 0 :: 6 :: rest)
        else .ok (8 :: 0 :: 6 :: rest) := by
  have hq : fixQuirk flags (0 :: 6 :: rest)
      = (flags ||| MPQ_FILE_COMPRESS, 8 :: 0 :: 6 :: rest) := rfl
  refine ⟨hq, or_compress_ne_zero flags, ?_⟩
  simp only [processSector, hq]
  rw [if_congr (and_iff_right (or_compress_ne_zero flags)) rfl rfl]

/-- Mapping `some` over an `Except` value never yields `.ok none`:
an exception stays an exception and a byte-string return becomes
`.ok (some bytes)`. -/
theorem except_map_some_ne_ok_none (r : Except MPQError (List Nat)) :
    r.map some ≠ .ok none := by
  cases r <;> simp [Except.map]

/-- C7: `read_file` returns Python's `None` (`.ok none`, distinguishable
from empty content `.ok (some [])` and from a raised exception) exactly
when the filename does not resolve to a hash-table entry, or the
resolved block entry has EXISTS clear, or its archived_size is 0. -/
theorem read_file_not_found_iff (c : Codecs) (a : Archive) (filename : List Nat)
    (force : Bool) :
    (read_file c a filename force).2 = .ok none ↔
      (get_hash_table_entry a.hash_table filename = none
       ∨ ∃ hash_entry block_entry,
           get_hash_table_entry a.hash_table filename = some hash_entry
         ∧ a.block_table[hash_entry.block_table_index]? = some block_entry
         ∧ (block_entry.flags &&& MPQ_FILE_EXISTS = 0 ∨ block_entry.archived_size = 0)) := by
  rcases h1 : get_hash_table_entry a.hash_table filename with _ | he
  · simp [read_file, h1]
  · rcases h2 : a.block_table[he.block_table_index]? with _ | be
    · simp [read_file, h1, h2]
    · by_cases hex : be.flags &&& MPQ_FILE_EXISTS = 0
      · simp [read_file, h1, h2, hex]
      · by_cases hsz : be.archived_size = 0
        · simp [read_file, h1, h2, hex, hsz]
        · by_cases hsu : be.flags &&& MPQ_FILE_SINGLE_UNIT = 0
          · simp [read_file, h1, h2, hex, hsz, hsu, except_map_some_ne_ok_none]
          · simp only [read_file, h1, h2]
            simp [hex, hsz, hsu, except_map_some_ne_ok_none]
            split_ifs <;>
              simp [h1, h2, hex, hsz, except_map_some_ne_ok_none]

/-- `read_file` only ever changes the archive's file position. -/
theorem read_file_archive_eq (c : Codecs) (a : Archive) (filename : List Nat)
    (force : Bool) :
    ∃ p, (read_file c a filename force).1 = { a with filePos := p } := by
  unfold read_file
  split
  · exact ⟨a.filePos, rfl⟩
  split
  · exact ⟨a.filePos, rfl⟩
  split
  · split
    · exact ⟨a.filePos, rfl⟩
    · dsimp only
      split
      · exact ⟨_, rfl⟩
      · split
        · exact ⟨_, rfl⟩
        · exact ⟨_, rfl⟩
  · exact ⟨a.filePos, rfl⟩

/-- The extraction loop preserves the header and both tables. -/
theorem extractLoop_frame (c : Codecs) : ∀ (l : List (List Nat)) (a : Archive),
    (extractLoop c a l).1.header = a.header
  ∧ (extractLoop c a l).1.hash_table = a.hash_table
  ∧ (extractLoop c a l).1.block_table = a.block_table := by
  intro l
  induction l with
  | nil => exact fun a => ⟨rfl, rfl, rfl⟩
  | cons f rest ih =>
    intro a
    obtain ⟨p, hp⟩ := read_file_archive_eq c a f false
    simp only [extractLoop]
    rcases hres : read_file c a f false with ⟨a1, r⟩
    rw [hres] at hp
    have ha1 : a1 = { a with filePos := p } := hp
    have hah : a1.header = a.header := by rw [ha1]
    have hat : a1.hash_table = a.hash_table := by rw [ha1]
    have hab : a1.block_table = a.block_table := by rw [ha1]
    cases r with
    | error e => exact ⟨hah, hat, hab⟩
    | ok v =>
      dsimp only
      have h2 := ih a1
      rcases hloop : extractLoop c a1 rest with ⟨a2, r2⟩
      rw [hloop] at h2
      cases r2 with
      | error e => exact ⟨h2.1.trans hah, h2.2.1.trans hat, h2.2.2.trans hab⟩
      | ok tail => exact ⟨h2.1.trans hah, h2.2.1.trans hat, h2.2.2.trans hab⟩

/-- `extract` preserves the header and both tables. -/
theorem extract_frame (c : Codecs) (a : Archive) (files : Option (List (List Nat))) :
    (extract c a files).1.header = a.header
  ∧ (extract c a files).1.hash_table = a.hash_table
  ∧ (extract c a files).1.block_table = a.block_table := by
  unfold extract
  repeat' first | split | dsimp only
  all_goals first
    | exact ⟨rfl, rfl, rfl⟩
    | exact extractLoop_frame c _ a

/-- C9: after an archive is opened, the parsed header, hash table and
block table are immutable: for every filename (and file list),
`read_file` and `extract` return an archive state whose header, hash
table and block table are unchanged (only the file position moves). -/
theorem tables_immutable (c : Codecs) (a : Archive) (filename : List Nat)
    (force : Bool) (files : Option (List (List Nat))) :
    ((read_file c a filename force).1.header = a.header
     ∧ (read_file c a filename force).1.hash_table = a.hash_table
     ∧ (read_file c a filename force).1.block_table = a.block_table)
  ∧ ((extract c a files).1.header = a.header
     ∧ (extract c a files).1.hash_table = a.hash_table
     ∧ (extract c a files).1.block_table = a.block_table) := by
  refine ⟨?_, extract_frame c a files⟩
  obtain ⟨p, hp⟩ := read_file_archive_eq c a filename force
  rw [hp]
  exact ⟨rfl, rfl, rfl⟩

/-- Witness for `implode_quirk`: an uncompressed block entry and the
two-byte sector `00 06`. -/
theorem implode_quirk_witness :
    ((0 : Nat) &&& MPQ_FILE_COMPRESS = 0)
  ∧ (fixQuirk 0 (0 :: 6 :: []) = (0 ||| MPQ_FILE_COMPRESS, 8 :: 0 :: 6 :: ([] : List Nat))
     ∧ ((0 : Nat) ||| MPQ_FILE_COMPRESS) &&& MPQ_FILE_COMPRESS ≠ 0
     ∧ processSector idCodecs false 0 10 (0 :: 6 :: [])
         = if false = true ∨ (((8 : Nat) :: 0 :: 6 :: ([] : List Nat)).length : Int) < 10
           then decompress idCodecs (8 :: 0 :: 6 :: [])
           else .ok (8 :: 0 :: 6 :: ([] : List Nat))) :=
  ⟨by decide, implode_quirk idCodecs false 0 10 [] (by decide)⟩

end Mpyq
